import Mathlib

/-!
Verification of the numerical core of
`src/codes/generate_cube_files_from_GCMC_snapshots.py`.

The pipeline computes a 3D probability density of adsorbate positions from
GCMC trajectory snapshots (`make_prob_density`), min-max normalizes a
before-density and an after-density, differences them, smooths the
difference with a boundary-corrected local averaging filter
(`local_average_3d`), and hands four grids to an external cube-file writer
(`get_filtered_prob_density`).

The embedding models numpy float arrays as functions into `ℚ` (exact
arithmetic standing for the real-number values the floating-point code
approximates).  Where numpy produces NaN from a division by zero, the `ℚ`
model produces `0`; the theorems concerned with those paths say so in
their doc comments.
-/

namespace GCMC

/-- A 3D grid of rational values, indexed like a numpy array of shape
(X, Y, Z). -/
abbrev Grid3 (X Y Z : ℕ) := Fin X → Fin Y → Fin Z → ℚ

/-- Total extension of a grid to all of `ℕ³`: the array value at (i, j, k)
when in bounds, and 0 outside. -/
def ext3 {X Y Z : ℕ} (A : Grid3 X Y Z) (i j k : ℕ) : ℚ :=
  if h : i < X ∧ j < Y ∧ k < Z then A ⟨i, h.1⟩ ⟨j, h.2.1⟩ ⟨k, h.2.2⟩ else 0

/-- Entry (p, q, r) of `np.pad(array, pad_width=n, constant_values=0)`
(source line 71): index p of the padded array corresponds to index p - n of
the original array, and entries of the border of width n are 0. -/
def paddedAt {X Y Z : ℕ} (A : Grid3 X Y Z) (n p q r : ℕ) : ℚ :=
  if n ≤ p ∧ n ≤ q ∧ n ≤ r then ext3 A (p - n) (q - n) (r - n) else 0

/-- `windows.sum(axis=(-3,-2,-1))` at output cell (x, y, z): the sum over
the (2n+1)³ window of the padded array whose low corner sits at (x, y, z)
(source lines 73-74 and 85). -/
def windowSum {X Y Z : ℕ} (A : Grid3 X Y Z) (n x y z : ℕ) : ℚ :=
  ∑ d1 ∈ Finset.range (2 * n + 1), ∑ d2 ∈ Finset.range (2 * n + 1),
    ∑ d3 ∈ Finset.range (2 * n + 1), paddedAt A n (x + d1) (y + d2) (z + d3)

/-- `np.ones_like(array)` (source line 80). -/
def onesGrid (X Y Z : ℕ) : Grid3 X Y Z := fun _ _ _ => 1

/-- `counts` (source lines 80-83): the window sums of the zero-padded
all-ones mask, i.e. the number of in-bounds cells in each window. -/
def windowCount (X Y Z n x y z : ℕ) : ℚ := windowSum (onesGrid X Y Z) n x y z

/-- `local_average_3d` (source lines 58-86): each output cell is the window
sum of the zero-padded array divided by the window sum of the zero-padded
mask of ones (line 85); the padded mean computed on line 76 is dead code,
overwritten on line 85. -/
def local_average_3d {X Y Z : ℕ} (A : Grid3 X Y Z) (n : ℕ) : Grid3 X Y Z :=
  fun x y z => windowSum A n x.val y.val z.val / windowCount X Y Z n x.val y.val z.val

/-- The in-bounds indices of axis [0, X) within distance n of x; the
conditions are the ℕ-subtraction-safe form of |i - x| ≤ n. -/
def axisNbhd (X n x : ℕ) : Finset ℕ :=
  (Finset.range X).filter fun i => x ≤ i + n ∧ i ≤ x + n

/-- The in-bounds cells within Chebyshev distance n of (x, y, z). -/
def chebNbhd (X Y Z n x y z : ℕ) : Finset (ℕ × ℕ × ℕ) :=
  axisNbhd X n x ×ˢ axisNbhd Y n y ×ˢ axisNbhd Z n z

/-- The 1D analog array [1, 2, 3, 4, 5], embedded with shape (5, 1, 1):
the value at index (i, 0, 0) is i + 1. -/
def arr5 : Grid3 5 1 1 := fun i _ _ => (i.val : ℚ) + 1

/-- The bin that `np.histogramdd` with edges `np.linspace(0, a, g + 1)`
assigns to a coordinate x (source lines 47-52, exact-arithmetic edges
`i * a / g`): samples outside [0, a] are dropped (`none`); every bin is
right-exclusive except the last, which also contains the right edge a.
For x in [0, a) the bin index is the greatest i with `i * a / g ≤ x`,
namely `⌊x * g / a⌋`. -/
def binIndex (a : ℚ) (g : ℕ) (x : ℚ) : Option ℕ :=
  if x < 0 ∨ a < x then none
  else if x = a then some (g - 1)
  else some (⌊x * g / a⌋).toNat

/-- One entry of `hist`: how many coordinates fall in the 3D bin
(i, j, k). -/
def histCount (a b c : ℚ) (g : ℕ) (coords : List (ℚ × ℚ × ℚ)) (i j k : Fin g) : ℕ :=
  coords.countP fun p =>
    decide (binIndex a g p.1 = some i.val ∧ binIndex b g p.2.1 = some j.val ∧
      binIndex c g p.2.2 = some k.val)

/-- `hist.sum()` (source line 54). -/
def totalCount (a b c : ℚ) (g : ℕ) (coords : List (ℚ × ℚ × ℚ)) : ℕ :=
  ∑ i : Fin g, ∑ j : Fin g, ∑ k : Fin g, histCount a b c g coords i j k

/-- `make_prob_density` (source lines 47-56), with the trajectory parsing
abstracted into the coordinate list: bin the coordinates into a g³ grid
spanning [0,a]×[0,b]×[0,c] and divide each count by `hist.sum()`.  When
the total count is zero numpy produces NaN entries; in this `ℚ` model the
division by zero produces 0. -/
def make_prob_density (a b c : ℚ) (g : ℕ) (coords : List (ℚ × ℚ × ℚ)) : Grid3 g g g :=
  fun i j k => (histCount a b c g coords i j k : ℚ) / (totalCount a b c g coords : ℚ)

instance finNonempty (n : ℕ) [NeZero n] : Nonempty (Fin n) :=
  ⟨⟨0, Nat.pos_of_ne_zero (NeZero.ne n)⟩⟩

/-- `array.min()` over a whole (nonempty) grid. -/
def gridInf3 {X Y Z : ℕ} [NeZero X] [NeZero Y] [NeZero Z] (A : Grid3 X Y Z) : ℚ :=
  Finset.univ.inf' Finset.univ_nonempty fun p : Fin X × Fin Y × Fin Z => A p.1 p.2.1 p.2.2

/-- `array.max()` over a whole (nonempty) grid. -/
def gridSup3 {X Y Z : ℕ} [NeZero X] [NeZero Y] [NeZero Z] (A : Grid3 X Y Z) : ℚ :=
  Finset.univ.sup' Finset.univ_nonempty fun p : Fin X × Fin Y × Fin Z => A p.1 p.2.1 p.2.2

/-- The min-max normalization step of the orchestrator (source lines
98-99): `(array - array.min()) / (array.max() - array.min())` elementwise.
On a flat grid numpy computes 0/0, i.e. NaN entries plus a runtime
warning; in this `ℚ` model the division by zero produces 0.  The source
has no check of its own. -/
def minmax_normalize {X Y Z : ℕ} [NeZero X] [NeZero Y] [NeZero Z] (A : Grid3 X Y Z) :
    Grid3 X Y Z :=
  fun x y z => (A x y z - gridInf3 A) / (gridSup3 A - gridInf3 A)

/-- The unit-cell edge lengths and filtered coordinates parsed from one
trajectory file (the CRYST1 record and the ATOM records of the selected
element, source lines 21-44). -/
structure ParsedTrajectory where
  a : ℚ
  b : ℚ
  c : ℚ
  coords : List (ℚ × ℚ × ℚ)

/-- The four output filenames, in the order the orchestrator writes them
(source lines 110-113). -/
def cubeFilenames (atm : String) : List String :=
  ["prob_density_" ++ atm ++ "_before_step.cube",
   "prob_density_" ++ atm ++ "_after_step.cube",
   "prob_density_" ++ atm ++ "_difference.cube",
   "prob_density_" ++ atm ++ "_difference_filtered.cube"]

/-- What `get_filtered_prob_density` produces: the four (filename, grid)
pairs handed to the external cube writer, and the value the function
returns to its caller. -/
structure PipelineResult (g : ℕ) where
  files : List (String × Grid3 g g g)
  retval : ℤ

/-- `get_filtered_prob_density` (source lines 88-115), with the parsing of
the two pdb files abstracted into `ParsedTrajectory` values: compute the
two densities, min-max normalize each, difference them, smooth the
difference, hand the four grids to the external writer, and return the
integer literal 0 (line 115). -/
def get_filtered_prob_density (g : ℕ) [NeZero g] (before after : ParsedTrajectory)
    (atm : String) (padding_n : ℕ) : PipelineResult g :=
  let prob_density_before :=
    minmax_normalize (make_prob_density before.a before.b before.c g before.coords)
  let prob_density_after :=
    minmax_normalize (make_prob_density after.a after.b after.c g after.coords)
  let prob_density_diff : Grid3 g g g :=
    fun x y z => prob_density_after x y z - prob_density_before x y z
  let prob_density_diff_filtered := local_average_3d prob_density_diff padding_n
  { files :=
      [("prob_density_" ++ atm ++ "_before_step.cube", prob_density_before),
       ("prob_density_" ++ atm ++ "_after_step.cube", prob_density_after),
       ("prob_density_" ++ atm ++ "_difference.cube", prob_density_diff),
       ("prob_density_" ++ atm ++ "_difference_filtered.cube", prob_density_diff_filtered)],
    retval := 0 }

/-- A small non-flat grid: value 0 at index (0,0,0) and 1 at (1,0,0). -/
def twoCellGrid : Grid3 2 1 1 := fun x _ _ => if x.val = 0 then 0 else 1

/-- Effect model of the four sequential, unguarded writer calls (source
lines 110-113): `failAt = some k` means the external writer raises on the
k-th call (0-indexed); the exception propagates (the source has no
handler and no cleanup), so exactly the files already written remain.
Returns the list of files on disk and whether the run succeeded. -/
def performWrites (names : List String) (failAt : Option ℕ) : List String × Bool :=
  match failAt with
  | none => (names, true)
  | some k => if k < names.length then (names.take k, false) else (names, true)

/-- Effect model of a whole run of the orchestrator: every computation
step (parsing, density estimation, normalization, smoothing, source lines
95-108) precedes the four writer calls, and an exception anywhere aborts
the run, so a compute-phase failure leaves no files at all. -/
def runPipelineFiles (computeFails : Bool) (atm : String) (failAt : Option ℕ) :
    List String × Bool :=
  if computeFails then ([], false) else performWrites (cubeFilenames atm) failAt

/-! ### Helper lemmas -/

lemma ext3_zero {X Y Z : ℕ} (A : Grid3 X Y Z) {i j k : ℕ}
    (h : X ≤ i ∨ Y ≤ j ∨ Z ≤ k) : ext3 A i j k = 0 := by
  unfold ext3
  rw [dif_neg]
  omega

lemma ext3_coe {X Y Z : ℕ} (A : Grid3 X Y Z) (x : Fin X) (y : Fin Y) (z : Fin Z) :
    ext3 A x.val y.val z.val = A x y z := by
  unfold ext3
  rw [dif_pos ⟨x.isLt, y.isLt, z.isLt⟩]

lemma ext3_eq_of_lt {X Y Z : ℕ} (A : Grid3 X Y Z) {i j k : ℕ}
    (hi : i < X) (hj : j < Y) (hk : k < Z) :
    ext3 A i j k = A ⟨i, hi⟩ ⟨j, hj⟩ ⟨k, hk⟩ := by
  unfold ext3
  rw [dif_pos ⟨hi, hj, hk⟩]

lemma paddedAt_eq_ite {X Y Z : ℕ} (A : Grid3 X Y Z) (n p q r : ℕ) :
    paddedAt A n p q r
      = if n ≤ p ∧ p - n < X ∧ n ≤ q ∧ q - n < Y ∧ n ≤ r ∧ r - n < Z
        then ext3 A (p - n) (q - n) (r - n) else 0 := by
  unfold paddedAt
  split_ifs with h1 h2 h3
  · rfl
  · exact ext3_zero A (by omega)
  · omega
  · rfl

lemma windowSum_eq_cheb {X Y Z : ℕ} (A : Grid3 X Y Z) (n x y z : ℕ) :
    windowSum A n x y z = ∑ p ∈ chebNbhd X Y Z n x y z, ext3 A p.1 p.2.1 p.2.2 := by
  have h1 : windowSum A n x y z
      = ∑ d ∈ Finset.range (2 * n + 1) ×ˢ Finset.range (2 * n + 1) ×ˢ Finset.range (2 * n + 1),
          paddedAt A n (x + d.1) (y + d.2.1) (z + d.2.2) := by
    unfold windowSum
    rw [Finset.sum_product]
    simp only [Finset.sum_product]
  rw [h1]
  simp only [paddedAt_eq_ite]
  rw [← Finset.sum_filter]
  refine Finset.sum_nbij' (fun d => (x + d.1 - n, y + d.2.1 - n, z + d.2.2 - n))
    (fun p => (p.1 + n - x, p.2.1 + n - y, p.2.2 + n - z)) ?_ ?_ ?_ ?_ ?_
  · intro d hd
    simp only [Finset.mem_filter, Finset.mem_product, Finset.mem_range] at hd
    simp only [chebNbhd, axisNbhd, Finset.mem_product, Finset.mem_filter, Finset.mem_range]
    omega
  · intro p hp
    simp only [chebNbhd, axisNbhd, Finset.mem_product, Finset.mem_filter, Finset.mem_range] at hp
    simp only [Finset.mem_filter, Finset.mem_product, Finset.mem_range]
    omega
  · intro d hd
    simp only [Finset.mem_filter, Finset.mem_product, Finset.mem_range] at hd
    simp only [Prod.ext_iff]
    omega
  · intro p hp
    simp only [chebNbhd, axisNbhd, Finset.mem_product, Finset.mem_filter, Finset.mem_range] at hp
    simp only [Prod.ext_iff]
    omega
  · intro d hd
    rfl

lemma mem_chebNbhd_bounds {X Y Z n x y z : ℕ} {p : ℕ × ℕ × ℕ}
    (hp : p ∈ chebNbhd X Y Z n x y z) : p.1 < X ∧ p.2.1 < Y ∧ p.2.2 < Z := by
  simp only [chebNbhd, axisNbhd, Finset.mem_product, Finset.mem_filter, Finset.mem_range] at hp
  omega

lemma windowCount_eq_card (X Y Z n x y z : ℕ) :
    windowCount X Y Z n x y z = ((chebNbhd X Y Z n x y z).card : ℚ) := by
  unfold windowCount
  rw [windowSum_eq_cheb]
  rw [Finset.sum_congr rfl fun p hp => ?_]
  · rw [Finset.sum_const, nsmul_eq_mul, mul_one]
  · have hb := mem_chebNbhd_bounds hp
    unfold ext3 onesGrid
    rw [dif_pos hb]

lemma center_mem_chebNbhd {X Y Z : ℕ} (n : ℕ) (x : Fin X) (y : Fin Y) (z : Fin Z) :
    (x.val, y.val, z.val) ∈ chebNbhd X Y Z n x.val y.val z.val := by
  have hx := x.isLt
  have hy := y.isLt
  have hz := z.isLt
  simp only [chebNbhd, axisNbhd, Finset.mem_product, Finset.mem_filter, Finset.mem_range]
  omega

lemma chebNbhd_card_pos {X Y Z : ℕ} (n : ℕ) (x : Fin X) (y : Fin Y) (z : Fin Z) :
    0 < (chebNbhd X Y Z n x.val y.val z.val).card :=
  Finset.card_pos.mpr ⟨_, center_mem_chebNbhd n x y z⟩

/-- The filter output is the sum of the in-bounds cells of the Chebyshev
neighborhood divided by the number of those cells. -/
lemma la_eq_cheb {X Y Z : ℕ} (A : Grid3 X Y Z) (n : ℕ) (x : Fin X) (y : Fin Y) (z : Fin Z) :
    local_average_3d A n x y z
      = (∑ p ∈ chebNbhd X Y Z n x.val y.val z.val, ext3 A p.1 p.2.1 p.2.2)
        / ((chebNbhd X Y Z n x.val y.val z.val).card : ℚ) := by
  unfold local_average_3d
  rw [windowSum_eq_cheb, windowCount_eq_card]

/-- A coordinate strictly inside [0, a] lands in the bin `⌊x * g / a⌋`,
which is in range. -/
lemma binIndex_of_mem (a : ℚ) (g : ℕ) (x : ℚ) (ha : 0 < a) (hg : 1 ≤ g)
    (hx0 : 0 < x) (hxa : x < a) :
    ∃ i : Fin g, binIndex a g x = some i.val := by
  have hga : (0 : ℚ) < g := by exact_mod_cast hg
  have hfl0 : 0 ≤ ⌊x * g / a⌋ := Int.floor_nonneg.mpr (by positivity)
  have hflg : ⌊x * g / a⌋ < g := by
    rw [Int.floor_lt]
    push_cast
    rw [div_lt_iff₀ ha]
    calc x * g < a * g := by exact mul_lt_mul_of_pos_right hxa hga
    _ = g * a := mul_comm a g
  refine ⟨⟨(⌊x * g / a⌋).toNat, by omega⟩, ?_⟩
  unfold binIndex
  rw [if_neg (by push_neg; constructor <;> linarith), if_neg (by linarith)]

lemma gridInf3_le {X Y Z : ℕ} [NeZero X] [NeZero Y] [NeZero Z] (A : Grid3 X Y Z)
    (x : Fin X) (y : Fin Y) (z : Fin Z) : gridInf3 A ≤ A x y z :=
  Finset.inf'_le (fun p : Fin X × Fin Y × Fin Z => A p.1 p.2.1 p.2.2)
    (Finset.mem_univ (x, y, z))

lemma le_gridSup3 {X Y Z : ℕ} [NeZero X] [NeZero Y] [NeZero Z] (A : Grid3 X Y Z)
    (x : Fin X) (y : Fin Y) (z : Fin Z) : A x y z ≤ gridSup3 A :=
  Finset.le_sup' (fun p : Fin X × Fin Y × Fin Z => A p.1 p.2.1 p.2.2)
    (Finset.mem_univ (x, y, z))

lemma le_gridInf3 {X Y Z : ℕ} [NeZero X] [NeZero Y] [NeZero Z] (A : Grid3 X Y Z)
    {q : ℚ} (h : ∀ x y z, q ≤ A x y z) : q ≤ gridInf3 A :=
  Finset.le_inf' _ _ fun p _ => h p.1 p.2.1 p.2.2

lemma gridSup3_le {X Y Z : ℕ} [NeZero X] [NeZero Y] [NeZero Z] (A : Grid3 X Y Z)
    {q : ℚ} (h : ∀ x y z, A x y z ≤ q) : gridSup3 A ≤ q :=
  Finset.sup'_le _ _ fun p _ => h p.1 p.2.1 p.2.2

lemma exists_gridInf3 {X Y Z : ℕ} [NeZero X] [NeZero Y] [NeZero Z] (A : Grid3 X Y Z) :
    ∃ p : Fin X × Fin Y × Fin Z, gridInf3 A = A p.1 p.2.1 p.2.2 := by
  obtain ⟨p, -, hp⟩ :=
    Finset.exists_mem_eq_inf' Finset.univ_nonempty
      fun p : Fin X × Fin Y × Fin Z => A p.1 p.2.1 p.2.2
  exact ⟨p, hp⟩

lemma exists_gridSup3 {X Y Z : ℕ} [NeZero X] [NeZero Y] [NeZero Z] (A : Grid3 X Y Z) :
    ∃ p : Fin X × Fin Y × Fin Z, gridSup3 A = A p.1 p.2.1 p.2.2 := by
  obtain ⟨p, -, hp⟩ :=
    Finset.exists_mem_eq_sup' Finset.univ_nonempty
      fun p : Fin X × Fin Y × Fin Z => A p.1 p.2.1 p.2.2
  exact ⟨p, hp⟩

/-! ### Claim theorems -/

/-- C1: for every 3D array and every radius n ≥ 1, the smoothing filter
output at each cell equals the sum of the in-bounds cells within Chebyshev
distance n divided by the number of in-bounds cells in that neighborhood —
not by the nominal (2n+1)³ window volume. -/
theorem local_average_3d_inbounds_mean {X Y Z : ℕ} (A : Grid3 X Y Z) (n : ℕ)
    (_hn : 1 ≤ n) (x : Fin X) (y : Fin Y) (z : Fin Z) :
    local_average_3d A n x y z
      = (∑ p ∈ chebNbhd X Y Z n x.val y.val z.val, ext3 A p.1 p.2.1 p.2.2)
        / ((chebNbhd X Y Z n x.val y.val z.val).card : ℚ) :=
  la_eq_cheb A n x y z

theorem local_average_3d_inbounds_mean_witness :
    1 ≤ 1 ∧ local_average_3d arr5 1 0 0 0 = 3 / 2 ∧ local_average_3d arr5 1 2 0 0 = 3 := by
  refine ⟨le_rfl, ?_, ?_⟩
  · rw [local_average_3d_inbounds_mean arr5 1 le_rfl 0 0 0,
      show chebNbhd 5 1 1 1 (0 : Fin 5).val (0 : Fin 1).val (0 : Fin 1).val
          = {(0, 0, 0), (1, 0, 0)} from by decide]
    rw [Finset.sum_insert (by decide), Finset.sum_singleton]
    rw [ext3_eq_of_lt arr5 (by norm_num) (by norm_num) (by norm_num),
      ext3_eq_of_lt arr5 (by norm_num) (by norm_num) (by norm_num)]
    rw [show ({((0 : ℕ), (0 : ℕ), (0 : ℕ)), ((1 : ℕ), (0 : ℕ), (0 : ℕ))} :
        Finset (ℕ × ℕ × ℕ)).card = 2 from by decide]
    norm_num [arr5]
  · rw [local_average_3d_inbounds_mean arr5 1 le_rfl 2 0 0,
      show chebNbhd 5 1 1 1 (2 : Fin 5).val (0 : Fin 1).val (0 : Fin 1).val
          = {(1, 0, 0), (2, 0, 0), (3, 0, 0)} from by decide]
    rw [Finset.sum_insert (by decide), Finset.sum_insert (by decide), Finset.sum_singleton]
    rw [ext3_eq_of_lt arr5 (by norm_num) (by norm_num) (by norm_num),
      ext3_eq_of_lt arr5 (by norm_num) (by norm_num) (by norm_num),
      ext3_eq_of_lt arr5 (by norm_num) (by norm_num) (by norm_num)]
    rw [show ({((1 : ℕ), (0 : ℕ), (0 : ℕ)), ((2 : ℕ), (0 : ℕ), (0 : ℕ)),
        ((3 : ℕ), (0 : ℕ), (0 : ℕ))} : Finset (ℕ × ℕ × ℕ)).card = 3 from by decide]
    norm_num [arr5]

/-- C2: for every unit cell with positive edges, every grid size ≥ 1 and
every non-empty coordinate list strictly inside the cell, the density
grid sums to exactly 1. -/
theorem make_prob_density_sums_to_one (a b c : ℚ) (g : ℕ)
    (coords : List (ℚ × ℚ × ℚ)) (ha : 0 < a) (hb : 0 < b) (hc : 0 < c) (hg : 1 ≤ g)
    (hne : coords ≠ [])
    (hin : ∀ p ∈ coords,
      0 < p.1 ∧ p.1 < a ∧ 0 < p.2.1 ∧ p.2.1 < b ∧ 0 < p.2.2 ∧ p.2.2 < c) :
    ∑ i : Fin g, ∑ j : Fin g, ∑ k : Fin g, make_prob_density a b c g coords i j k = 1 := by
  obtain ⟨p, hp⟩ := List.exists_mem_of_ne_nil coords hne
  obtain ⟨hpx, hpxa, hpy, hpyb, hpz, hpzc⟩ := hin p hp
  obtain ⟨i, hi⟩ := binIndex_of_mem a g p.1 ha hg hpx hpxa
  obtain ⟨j, hj⟩ := binIndex_of_mem b g p.2.1 hb hg hpy hpyb
  obtain ⟨k, hk⟩ := binIndex_of_mem c g p.2.2 hc hg hpz hpzc
  have hcount : 0 < histCount a b c g coords i j k := by
    unfold histCount
    rw [List.countP_pos_iff]
    exact ⟨p, hp, by rw [decide_eq_true_eq]; exact ⟨hi, hj, hk⟩⟩
  have htot : totalCount a b c g coords
      = ∑ p : Fin g × Fin g × Fin g, histCount a b c g coords p.1 p.2.1 p.2.2 := by
    unfold totalCount
    rw [Fintype.sum_prod_type]
    simp only [Fintype.sum_prod_type]
  have hle : histCount a b c g coords i j k ≤ totalCount a b c g coords := by
    rw [htot]
    have h0 : ∑ p ∈ ({(i, j, k)} : Finset (Fin g × Fin g × Fin g)),
          histCount a b c g coords p.1 p.2.1 p.2.2
        ≤ ∑ p : Fin g × Fin g × Fin g, histCount a b c g coords p.1 p.2.1 p.2.2 :=
      Finset.sum_le_sum_of_subset (Finset.subset_univ _)
    rw [Finset.sum_singleton] at h0
    exact h0
  have hT : 0 < totalCount a b c g coords := lt_of_lt_of_le hcount hle
  have hTQ : ((totalCount a b c g coords : ℚ)) ≠ 0 := by exact_mod_cast hT.ne'
  unfold make_prob_density
  simp only [← Finset.sum_div]
  rw [div_eq_one_iff_eq hTQ]
  norm_cast

theorem make_prob_density_sums_to_one_witness :
    (0 : ℚ) < 1 ∧ 1 ≤ 1 ∧ ([((1 : ℚ) / 2, (1 : ℚ) / 2, (1 : ℚ) / 2)] ≠ ([] : List (ℚ × ℚ × ℚ))) ∧
    (∀ p ∈ [((1 : ℚ) / 2, (1 : ℚ) / 2, (1 : ℚ) / 2)],
      0 < p.1 ∧ p.1 < 1 ∧ 0 < p.2.1 ∧ p.2.1 < 1 ∧ 0 < p.2.2 ∧ p.2.2 < 1) ∧
    ∑ i : Fin 1, ∑ j : Fin 1, ∑ k : Fin 1,
      make_prob_density 1 1 1 1 [((1 : ℚ) / 2, (1 : ℚ) / 2, (1 : ℚ) / 2)] i j k = 1 :=
  ⟨one_pos, le_rfl, by simp, by norm_num,
    make_prob_density_sums_to_one 1 1 1 1 [((1 : ℚ) / 2, (1 : ℚ) / 2, (1 : ℚ) / 2)]
      one_pos one_pos one_pos le_rfl (by simp) (by norm_num)⟩

/-- C4: for every non-degenerate grid (max strictly above min), min-max
normalization produces a grid whose minimum is exactly 0 and whose maximum
is exactly 1. -/
theorem minmax_normalize_min_max {X Y Z : ℕ} [NeZero X] [NeZero Y] [NeZero Z]
    (A : Grid3 X Y Z) (h : gridInf3 A < gridSup3 A) :
    gridInf3 (minmax_normalize A) = 0 ∧ gridSup3 (minmax_normalize A) = 1 := by
  have hr : (0 : ℚ) < gridSup3 A - gridInf3 A := sub_pos.mpr h
  constructor
  · apply le_antisymm
    · obtain ⟨p₀, hp₀⟩ := exists_gridInf3 A
      have hval : minmax_normalize A p₀.1 p₀.2.1 p₀.2.2 = 0 := by
        unfold minmax_normalize
        rw [← hp₀, sub_self, zero_div]
      calc gridInf3 (minmax_normalize A) ≤ minmax_normalize A p₀.1 p₀.2.1 p₀.2.2 :=
          gridInf3_le _ _ _ _
        _ = 0 := hval
    · refine le_gridInf3 _ fun x y z => ?_
      unfold minmax_normalize
      exact div_nonneg (sub_nonneg.mpr (gridInf3_le A x y z)) hr.le
  · apply le_antisymm
    · refine gridSup3_le _ fun x y z => ?_
      unfold minmax_normalize
      rw [div_le_one hr]
      exact sub_le_sub_right (le_gridSup3 A x y z) _
    · obtain ⟨p₁, hp₁⟩ := exists_gridSup3 A
      have hval : minmax_normalize A p₁.1 p₁.2.1 p₁.2.2 = 1 := by
        unfold minmax_normalize
        rw [← hp₁, div_self hr.ne']
      calc (1 : ℚ) = minmax_normalize A p₁.1 p₁.2.1 p₁.2.2 := hval.symm
        _ ≤ gridSup3 (minmax_normalize A) := le_gridSup3 _ _ _ _

theorem minmax_normalize_min_max_witness :
    gridInf3 twoCellGrid < gridSup3 twoCellGrid ∧
    gridInf3 (minmax_normalize twoCellGrid) = 0 ∧
    gridSup3 (minmax_normalize twoCellGrid) = 1 := by
  have e0 : twoCellGrid 0 0 0 = 0 := rfl
  have e1 : twoCellGrid 1 0 0 = 1 := rfl
  have h : gridInf3 twoCellGrid < gridSup3 twoCellGrid := by
    have h1 : gridInf3 twoCellGrid ≤ 0 := (gridInf3_le twoCellGrid 0 0 0).trans_eq e0
    have h2 : (1 : ℚ) ≤ gridSup3 twoCellGrid := e1 ▸ le_gridSup3 twoCellGrid 1 0 0
    linarith
  exact ⟨h, (minmax_normalize_min_max twoCellGrid h).1, (minmax_normalize_min_max twoCellGrid h).2⟩

/-- C6: for every 3D array, the smoothing filter with radius n = 0 returns
an array equal to its input (it is the identity transform). -/
theorem local_average_3d_zero_radius_identity {X Y Z : ℕ} (A : Grid3 X Y Z) :
    local_average_3d A 0 = A := by
  funext x y z
  rw [la_eq_cheb]
  have hset : chebNbhd X Y Z 0 x.val y.val z.val = {(x.val, y.val, z.val)} := by
    ext p
    have hx := x.isLt
    have hy := y.isLt
    have hz := z.isLt
    simp only [chebNbhd, axisNbhd, Finset.mem_product, Finset.mem_filter, Finset.mem_range,
      Finset.mem_singleton, Prod.ext_iff]
    omega
  rw [hset, Finset.sum_singleton, Finset.card_singleton, ext3_coe]
  norm_num

/-- C3: the code has no empty-selection check: with zero matching
coordinates, `make_prob_density` computes `hist / hist.sum()` with total
count 0 and every cell of the result is the degenerate quotient 0/0 — a
silent NaN grid in numpy (here 0, the `ℚ` value of division by zero) — and
no InvalidInput/EmptySelection error is raised anywhere in the source. -/
theorem make_prob_density_empty_selection_silent (a b c : ℚ) (g : ℕ) (i j k : Fin g) :
    make_prob_density a b c g [] i j k = 0 ∧ totalCount a b c g [] = 0 := by
  constructor
  · unfold make_prob_density histCount
    simp
  · unfold totalCount histCount
    simp

/-- C5: the code has no degenerate-density check: min-max normalizing a
flat grid (min = max) computes (v - v)/(v - v) = 0/0 in every cell — a
silent NaN grid plus a runtime warning in numpy (here 0, the `ℚ` value of
division by zero) — and no DegenerateDensity error naming the offending
stage is raised anywhere in the source. -/
theorem minmax_normalize_flat_silent (X Y Z : ℕ) [NeZero X] [NeZero Y] [NeZero Z]
    (v : ℚ) (x : Fin X) (y : Fin Y) (z : Fin Z) :
    minmax_normalize (fun _ _ _ => v) x y z = 0 := by
  unfold minmax_normalize
  have h1 : gridInf3 (fun (_ : Fin X) (_ : Fin Y) (_ : Fin Z) => v) = v :=
    Finset.inf'_const Finset.univ_nonempty v
  have h2 : gridSup3 (fun (_ : Fin X) (_ : Fin Y) (_ : Fin Z) => v) = v :=
    Finset.sup'_const Finset.univ_nonempty v
  rw [h1, h2, sub_self, zero_div]

theorem minmax_normalize_flat_silent_witness :
    minmax_normalize (fun (_ : Fin 1) (_ : Fin 1) (_ : Fin 1) => (5 : ℚ)) 0 0 0 = 0 :=
  minmax_normalize_flat_silent 1 1 1 5 0 0 0

/-- C7: a coordinate lying exactly on the interior bin boundary
`k * a / g` (1 ≤ k ≤ g - 1) is assigned to exactly one bin, namely bin k —
the bin whose left edge it is, so bins are right-exclusive — while the
right edge a of the final bin is assigned to the last bin g - 1. -/
theorem binIndex_boundary_assignment (a : ℚ) (g k : ℕ) (ha : 0 < a) (hg : 1 ≤ g)
    (hk1 : 1 ≤ k) (hkg : k < g) :
    (∀ i : ℕ, binIndex a g (a * k / g) = some i ↔ i = k) ∧
    binIndex a g a = some (g - 1) := by
  have hg0 : (0 : ℚ) < g := by exact_mod_cast lt_of_lt_of_le one_pos hg
  have hk0 : (0 : ℚ) < k := by exact_mod_cast hk1
  have hx0 : 0 < a * k / g := div_pos (mul_pos ha hk0) hg0
  have hxa : a * k / g < a := by
    rw [div_lt_iff₀ hg0]
    calc a * k < a * g := by
          apply mul_lt_mul_of_pos_left _ ha
          exact_mod_cast hkg
      _ = a * g := rfl
  have hmain : binIndex a g (a * k / g) = some k := by
    unfold binIndex
    rw [if_neg (by push_neg; constructor <;> linarith), if_neg (ne_of_lt hxa)]
    have hq : a * k / g * g / a = k := by
      field_simp
    rw [hq, Int.floor_natCast]
    simp
  refine ⟨fun i => ?_, ?_⟩
  · rw [hmain]
    simp [eq_comm]
  · unfold binIndex
    rw [if_neg (by push_neg; exact ⟨ha.le, le_rfl⟩), if_pos rfl]

theorem binIndex_boundary_assignment_witness :
    (0 : ℚ) < 1 ∧ 1 ≤ 2 ∧ 1 ≤ 1 ∧ 1 < 2 ∧
    ((∀ i : ℕ, binIndex 1 2 ((1 : ℚ) * (1 : ℕ) / (2 : ℕ)) = some i ↔ i = 1) ∧
      binIndex 1 2 1 = some (2 - 1)) :=
  ⟨one_pos, by norm_num, le_rfl, by norm_num,
    binIndex_boundary_assignment 1 2 1 one_pos (by norm_num) le_rfl (by norm_num)⟩

/-- C9: every cell of the smoothing filter output lies between the minimum
and the maximum of the input array (it is the mean of a non-empty set of
input cells); in particular an input with all values in [-1, 1] — such as
a difference of two min-max normalized grids — yields output in [-1, 1]. -/
theorem local_average_3d_within_bounds {X Y Z : ℕ} [NeZero X] [NeZero Y] [NeZero Z]
    (A : Grid3 X Y Z) (n : ℕ) (x : Fin X) (y : Fin Y) (z : Fin Z) :
    gridInf3 A ≤ local_average_3d A n x y z ∧ local_average_3d A n x y z ≤ gridSup3 A ∧
    ((∀ x' y' z', -1 ≤ A x' y' z' ∧ A x' y' z' ≤ 1) →
      -1 ≤ local_average_3d A n x y z ∧ local_average_3d A n x y z ≤ 1) := by
  have hcard : (0 : ℚ) < ((chebNbhd X Y Z n x.val y.val z.val).card : ℚ) := by
    exact_mod_cast chebNbhd_card_pos n x y z
  have hbound : ∀ p ∈ chebNbhd X Y Z n x.val y.val z.val,
      gridInf3 A ≤ ext3 A p.1 p.2.1 p.2.2 ∧ ext3 A p.1 p.2.1 p.2.2 ≤ gridSup3 A := by
    intro p hp
    obtain ⟨h1, h2, h3⟩ := mem_chebNbhd_bounds hp
    rw [ext3_eq_of_lt A h1 h2 h3]
    exact ⟨gridInf3_le A _ _ _, le_gridSup3 A _ _ _⟩
  have hlow : gridInf3 A ≤ local_average_3d A n x y z := by
    rw [la_eq_cheb, le_div_iff₀ hcard]
    calc gridInf3 A * ((chebNbhd X Y Z n x.val y.val z.val).card : ℚ)
        = (chebNbhd X Y Z n x.val y.val z.val).card • gridInf3 A := by
          rw [nsmul_eq_mul, mul_comm]
      _ ≤ ∑ p ∈ chebNbhd X Y Z n x.val y.val z.val, ext3 A p.1 p.2.1 p.2.2 :=
          Finset.card_nsmul_le_sum _ _ _ fun p hp => (hbound p hp).1
  have hup : local_average_3d A n x y z ≤ gridSup3 A := by
    rw [la_eq_cheb, div_le_iff₀ hcard]
    calc ∑ p ∈ chebNbhd X Y Z n x.val y.val z.val, ext3 A p.1 p.2.1 p.2.2
        ≤ (chebNbhd X Y Z n x.val y.val z.val).card • gridSup3 A :=
          Finset.sum_le_card_nsmul _ _ _ fun p hp => (hbound p hp).2
      _ = gridSup3 A * ((chebNbhd X Y Z n x.val y.val z.val).card : ℚ) := by
          rw [nsmul_eq_mul, mul_comm]
  refine ⟨hlow, hup, fun hb => ⟨?_, ?_⟩⟩
  · have h1 : -1 ≤ gridInf3 A := le_gridInf3 A fun x' y' z' => (hb x' y' z').1
    linarith
  · have h2 : gridSup3 A ≤ 1 := gridSup3_le A fun x' y' z' => (hb x' y' z').2
    linarith

theorem local_average_3d_within_bounds_witness :
    gridInf3 twoCellGrid ≤ local_average_3d twoCellGrid 3 0 0 0 ∧
    local_average_3d twoCellGrid 3 0 0 0 ≤ gridSup3 twoCellGrid ∧
    ((∀ x' y' z', -1 ≤ twoCellGrid x' y' z' ∧ twoCellGrid x' y' z' ≤ 1) →
      -1 ≤ local_average_3d twoCellGrid 3 0 0 0 ∧ local_average_3d twoCellGrid 3 0 0 0 ≤ 1) :=
  local_average_3d_within_bounds twoCellGrid 3 0 0 0

/-- C10: on success the orchestrator returns the integer 0 — not any of
the four computed grids, which leave the function only through the four
writer calls (in the order before, after, difference, filtered
difference) — so the top-level binding
`prob_density_diff_filtered = get_filtered_prob_density(...)` (source line
130) receives 0, not the filtered difference grid. -/
theorem get_filtered_prob_density_returns_zero (g : ℕ) [NeZero g]
    (before after : ParsedTrajectory) (atm : String) (padding_n : ℕ) :
    (get_filtered_prob_density g before after atm padding_n).retval = 0 ∧
    (get_filtered_prob_density g before after atm padding_n).files.map Prod.fst
      = cubeFilenames atm :=
  ⟨rfl, rfl⟩

theorem get_filtered_prob_density_returns_zero_witness :
    (get_filtered_prob_density 1 ⟨1, 1, 1, []⟩ ⟨1, 1, 1, []⟩ "Ar" 0).retval = 0 ∧
    (get_filtered_prob_density 1 ⟨1, 1, 1, []⟩ ⟨1, 1, 1, []⟩ "Ar" 0).files.map Prod.fst
      = cubeFilenames "Ar" :=
  get_filtered_prob_density_returns_zero 1 ⟨1, 1, 1, []⟩ ⟨1, 1, 1, []⟩ "Ar" 0

/-- C8 counterexample: a run whose external writer fails on the third of
the four write calls fails, yet leaves the two files already written on
disk — a partial result set that is neither empty nor complete, so
"either all four outputs are produced or none" is false of the code. -/
theorem partial_write_counterexample :
    (runPipelineFiles false "Ar" (some 2)).2 = false ∧
    (runPipelineFiles false "Ar" (some 2)).1 ≠ [] ∧
    (runPipelineFiles false "Ar" (some 2)).1 ≠ cubeFilenames "Ar" := by
  refine ⟨rfl, ?_, ?_⟩ <;> decide

/-- C8 amended: all computation precedes all writes, so a failure in any
compute stage leaves no output files; but a writer failure at the k-th
write call leaves exactly the first k files in place (the source has no
handler and no cleanup), so a mid-write failure leaves a partial result
set. -/
theorem pipeline_writes_prefix_on_failure (atm : String) (failAt : Option ℕ)
    (k : ℕ) (hk : k ≤ 4) :
    (runPipelineFiles true atm failAt).1 = [] ∧
    (runPipelineFiles false atm (some k)).1 = (cubeFilenames atm).take k ∧
    runPipelineFiles false atm none = (cubeFilenames atm, true) := by
  refine ⟨rfl, ?_, rfl⟩
  by_cases h4 : k < 4
  · simp [runPipelineFiles, performWrites, cubeFilenames, h4]
  · have hk4 : k = 4 := by omega
    subst hk4
    simp [runPipelineFiles, performWrites, cubeFilenames]

theorem pipeline_writes_prefix_on_failure_witness :
    2 ≤ 4 ∧
    ((runPipelineFiles true "Ar" none).1 = [] ∧
     (runPipelineFiles false "Ar" (some 2)).1 = (cubeFilenames "Ar").take 2 ∧
     runPipelineFiles false "Ar" none = (cubeFilenames "Ar", true)) :=
  ⟨by norm_num, pipeline_writes_prefix_on_failure "Ar" none 2 (by norm_num)⟩

end GCMC